import Mathlib

/-!
Verification development for the crypto-knowledge MCP server
(source: `crypto_mcp.py`).

Strings are modelled as `List Char`.  Python's `str.find` / `str.rfind`
return `-1` when the pattern is absent; we model them with an `Option Nat`
scanner wrapped into `Int`.  Python slices `t[a:b]` are modelled with the
usual clamping semantics (negative indices count from the end).
-/

namespace CryptoMcp

abbrev Str := List Char

/-- The fenced-JSON opener marker searched by the normalizer. -/
def openFence : Str := "```json".toList

/-- The generic fence-closer marker. -/
def closeFence : Str := "```".toList

/-- The backtick character (code point 96). -/
def backtickChar : Char := Char.ofNat 96

/-- `OccursAt pat t i` : the pattern `pat` occurs in `t` starting at index `i`. -/
def OccursAt (pat t : Str) (i : Nat) : Prop := pat.isPrefixOf (t.drop i) = true

instance (pat t : Str) (i : Nat) : Decidable (OccursAt pat t i) :=
  inferInstanceAs (Decidable (_ = true))

/-- Index of the first occurrence of `pat` in `t` (as Python `str.find`,
with `none` for Python's `-1`). -/
def findOcc (pat : Str) : Str → Option Nat
  | [] => if pat.isPrefixOf ([] : Str) then some 0 else none
  | c :: rest =>
    if pat.isPrefixOf (c :: rest) then some 0
    else Option.map (fun n => n + 1) (findOcc pat rest)

/-- Index of the last occurrence of `pat` in `t` (as Python `str.rfind`,
with `none` for Python's `-1`). -/
def rfindOcc (pat : Str) : Str → Option Nat
  | [] => if pat.isPrefixOf ([] : Str) then some 0 else none
  | c :: rest =>
    match Option.map (fun n => n + 1) (rfindOcc pat rest) with
    | some j => some j
    | none => if pat.isPrefixOf (c :: rest) then some 0 else none

/-- Python `text.find(pat)` : first index, or `-1` when absent. -/
def strFind (t pat : Str) : Int := (findOcc pat t).elim (-1) (fun n => (n : Int))

/-- Python `text.rfind(pat)` : last index, or `-1` when absent. -/
def strRfind (t pat : Str) : Int := (rfindOcc pat t).elim (-1) (fun n => (n : Int))

theorem occursAt_nil_iff (pat : Str) (i : Nat) :
    OccursAt pat [] i ↔ pat.isPrefixOf ([] : Str) = true := by
  simp [OccursAt]

theorem occursAt_zero (pat t : Str) : OccursAt pat t 0 ↔ pat.isPrefixOf t = true := by
  simp [OccursAt]

theorem occursAt_succ_cons (pat t : Str) (c : Char) (i : Nat) :
    OccursAt pat (c :: t) (i + 1) ↔ OccursAt pat t i := by
  simp [OccursAt]

theorem findOcc_eq_none_iff (pat t : Str) :
    findOcc pat t = none ↔ ∀ j, ¬ OccursAt pat t j := by
  induction t with
  | nil =>
    by_cases h : pat.isPrefixOf ([] : Str) = true
    · simp [findOcc, h, occursAt_nil_iff]
    · simp only [findOcc]
      rw [if_neg (by simpa using h)]
      simp [occursAt_nil_iff, h]
  | cons c rest ih =>
    by_cases h : pat.isPrefixOf (c :: rest) = true
    · simp only [findOcc]
      rw [if_pos h]
      constructor
      · intro hc; exact absurd hc (by simp)
      · intro hall; exact absurd ((occursAt_zero pat (c :: rest)).mpr h) (hall 0)
    · simp only [findOcc]
      rw [if_neg (by simpa using h)]
      constructor
      · intro hc j
        have hrest : findOcc pat rest = none := by
          cases hk : findOcc pat rest with
          | none => rfl
          | some k => rw [hk] at hc; simp at hc
        cases j with
        | zero => rw [occursAt_zero]; simpa using h
        | succ j' => rw [occursAt_succ_cons]; exact (ih.mp hrest) j'
      · intro hall
        have : findOcc pat rest = none :=
          ih.mpr (fun j => by
            have := hall (j + 1)
            rwa [occursAt_succ_cons] at this)
        simp [this]

theorem findOcc_eq_some_iff (pat t : Str) (i : Nat) :
    findOcc pat t = some i ↔ OccursAt pat t i ∧ ∀ j, j < i → ¬ OccursAt pat t j := by
  induction t generalizing i with
  | nil =>
    by_cases h : pat.isPrefixOf ([] : Str) = true
    · simp only [findOcc]
      rw [if_pos h]
      constructor
      · intro hc
        have hi : i = 0 := by simpa using hc.symm
        subst hi
        exact ⟨(occursAt_nil_iff pat 0).mpr h, fun j hj => absurd hj (Nat.not_lt_zero j)⟩
      · rintro ⟨_, hmin⟩
        cases i with
        | zero => rfl
        | succ i' => exact absurd ((occursAt_nil_iff pat 0).mpr h) (hmin 0 (Nat.succ_pos i'))
    · simp only [findOcc]
      rw [if_neg (by simpa using h)]
      constructor
      · intro hc; exact absurd hc (by simp)
      · rintro ⟨hocc, _⟩
        exact absurd ((occursAt_nil_iff pat i).mp hocc) h
  | cons c rest ih =>
    by_cases h : pat.isPrefixOf (c :: rest) = true
    · simp only [findOcc]
      rw [if_pos h]
      constructor
      · intro hc
        have hi : i = 0 := by simpa using hc.symm
        subst hi
        exact ⟨(occursAt_zero pat (c :: rest)).mpr h, fun j hj => absurd hj (Nat.not_lt_zero j)⟩
      · rintro ⟨_, hmin⟩
        cases i with
        | zero => rfl
        | succ i' =>
          exact absurd ((occursAt_zero pat (c :: rest)).mpr h) (hmin 0 (Nat.succ_pos i'))
    · simp only [findOcc]
      rw [if_neg (by simpa using h)]
      constructor
      · intro hc
        cases hk : findOcc pat rest with
        | none => rw [hk] at hc; simp at hc
        | some k =>
          rw [hk] at hc
          simp only [Option.map_some'] at hc
          have hi : i = k + 1 := by simpa using hc.symm
          subst hi
          obtain ⟨hocc, hmin⟩ := (ih k).mp hk
          refine ⟨(occursAt_succ_cons pat rest c k).mpr hocc, ?_⟩
          intro j hj
          cases j with
          | zero => rw [occursAt_zero]; simpa using h
          | succ j' =>
            rw [occursAt_succ_cons]
            exact hmin j' (by omega)
      · rintro ⟨hocc, hmin⟩
        cases i with
        | zero => exact absurd ((occursAt_zero pat (c :: rest)).mp hocc) h
        | succ i' =>
          have hocc' : OccursAt pat rest i' := (occursAt_succ_cons pat rest c i').mp hocc
          have hmin' : ∀ j, j < i' → ¬ OccursAt pat rest j := by
            intro j hj
            have := hmin (j + 1) (by omega)
            rwa [occursAt_succ_cons] at this
          have : findOcc pat rest = some i' := (ih i').mpr ⟨hocc', hmin'⟩
          simp [this]

theorem rfindOcc_eq_none_iff (pat t : Str) :
    rfindOcc pat t = none ↔ ∀ j, ¬ OccursAt pat t j := by
  induction t with
  | nil =>
    by_cases h : pat.isPrefixOf ([] : Str) = true
    · simp [rfindOcc, h, occursAt_nil_iff]
    · simp only [rfindOcc]
      rw [if_neg (by simpa using h)]
      simp [occursAt_nil_iff, h]
  | cons c rest ih =>
    simp only [rfindOcc]
    cases hk : rfindOcc pat rest with
    | some k =>
      simp only [Option.map_some']
      constructor
      · intro hc; exact absurd hc (by simp)
      · intro hall
        have : rfindOcc pat rest = none :=
          ih.mpr (fun j => by
            have := hall (j + 1)
            rwa [occursAt_succ_cons] at this)
        rw [hk] at this; exact absurd this (by simp)
    | none =>
      simp only [Option.map_none']
      by_cases h : pat.isPrefixOf (c :: rest) = true
      · rw [if_pos h]
        constructor
        · intro hc; exact absurd hc (by simp)
        · intro hall; exact absurd ((occursAt_zero pat (c :: rest)).mpr h) (hall 0)
      · rw [if_neg (by simpa using h)]
        constructor
        · intro _ j
          cases j with
          | zero => rw [occursAt_zero]; simpa using h
          | succ j' => rw [occursAt_succ_cons]; exact (ih.mp hk) j'
        · intro _; rfl

theorem rfindOcc_eq_some_iff (pat t : Str) (i : Nat) (hp : pat ≠ []) :
    rfindOcc pat t = some i ↔ OccursAt pat t i ∧ ∀ j, OccursAt pat t j → j ≤ i := by
  induction t generalizing i with
  | nil =>
    have h : pat.isPrefixOf ([] : Str) ≠ true := by
      cases pat with
      | nil => exact absurd rfl hp
      | cons a as => simp [List.isPrefixOf]
    simp only [rfindOcc]
    rw [if_neg h]
    constructor
    · intro hc; exact absurd hc (by simp)
    · rintro ⟨hocc, _⟩
      exact absurd ((occursAt_nil_iff pat i).mp hocc) h
  | cons c rest ih =>
    simp only [rfindOcc]
    cases hk : rfindOcc pat rest with
    | some k =>
      simp only [Option.map_some']
      obtain ⟨hocc, hmax⟩ := (ih k).mp hk
      constructor
      · intro hc
        have hi : i = k + 1 := by simpa using hc.symm
        subst hi
        refine ⟨(occursAt_succ_cons pat rest c k).mpr hocc, ?_⟩
        intro j hj
        cases j with
        | zero => omega
        | succ j' =>
          have := hmax j' ((occursAt_succ_cons pat rest c j').mp hj)
          omega
      · rintro ⟨hocc', hmax'⟩
        have h1 : k + 1 ≤ i :=
          hmax' (k + 1) ((occursAt_succ_cons pat rest c k).mpr hocc)
        cases i with
        | zero => omega
        | succ i' =>
          have h2 : i' ≤ k := hmax i' ((occursAt_succ_cons pat rest c i').mp hocc')
          have : i' = k := by omega
          subst this
          rfl
    | none =>
      simp only [Option.map_none']
      have hnone : ∀ j, ¬ OccursAt pat rest j := (rfindOcc_eq_none_iff pat rest).mp hk
      by_cases h : pat.isPrefixOf (c :: rest) = true
      · rw [if_pos h]
        constructor
        · intro hc
          have hi : i = 0 := by simpa using hc.symm
          subst hi
          refine ⟨(occursAt_zero pat (c :: rest)).mpr h, ?_⟩
          intro j hj
          cases j with
          | zero => exact Nat.le_refl 0
          | succ j' =>
            exact absurd ((occursAt_succ_cons pat rest c j').mp hj) (hnone j')
        · rintro ⟨hocc', hmax'⟩
          cases i with
          | zero => rfl
          | succ i' =>
            exact absurd ((occursAt_succ_cons pat rest c i').mp hocc') (hnone i')
      · rw [if_neg (by simpa using h)]
        constructor
        · intro hc; exact absurd hc (by simp)
        · rintro ⟨hocc', _⟩
          cases i with
          | zero => exact absurd ((occursAt_zero pat (c :: rest)).mp hocc') h
          | succ i' =>
            exact absurd ((occursAt_succ_cons pat rest c i').mp hocc') (hnone i')

/-- An occurrence of a pattern decomposes the dropped suffix. -/
theorem occursAt_drop_eq (pat t : Str) (i : Nat) (h : OccursAt pat t i) :
    ∃ u, t.drop i = pat ++ u := by
  obtain ⟨u, hu⟩ := (List.isPrefixOf_iff_prefix).mp h
  exact ⟨u, hu.symm⟩

/-- An occurrence forces the pattern's characters to appear at the
corresponding indices of the text. -/
theorem occursAt_getElem (pat t : Str) (i k : Nat) (h : OccursAt pat t i)
    (hk : k < pat.length) : t[i + k]? = pat[k]? := by
  obtain ⟨u, hu⟩ := occursAt_drop_eq pat t i h
  have h1 : (t.drop i)[k]? = t[i + k]? := List.getElem?_drop t i k
  rw [hu] at h1
  rw [← h1, List.getElem?_append_left hk]

/-- A nonempty pattern only occurs at indices leaving room for it. -/
theorem occursAt_add_length_le (pat t : Str) (i : Nat) (hp : pat ≠ [])
    (h : OccursAt pat t i) : i + pat.length ≤ t.length := by
  obtain ⟨u, hu⟩ := occursAt_drop_eq pat t i h
  have hlen : t.length - i = pat.length + u.length := by
    have := congrArg List.length hu
    simpa using this
  by_cases hi : i ≤ t.length
  · omega
  · exfalso
    have : t.drop i = [] := List.drop_eq_nil_of_le (by omega)
    rw [this] at hu
    have : pat = [] := by
      cases pat with
      | nil => rfl
      | cons a as => simp at hu
    exact hp this

/-! ### Python string operations: strip and slicing -/

/-- Code points of the characters Python's `str.isspace` (and hence the
default `str.strip`) treats as whitespace. -/
def pySpaceCodes : List Nat :=
  [32, 9, 10, 13, 11, 12, 28, 29, 30, 31, 133, 160, 5760,
   8192, 8193, 8194, 8195, 8196, 8197, 8198, 8199, 8200, 8201, 8202,
   8232, 8233, 8239, 8287, 12288]

/-- Python `str.isspace` for a single character. -/
def pyIsSpace (c : Char) : Bool := pySpaceCodes.contains c.toNat

/-- Python `str.lstrip()`. -/
def pyLstrip (t : Str) : Str := t.dropWhile pyIsSpace

/-- Python `str.rstrip()`. -/
def pyRstrip (t : Str) : Str := (t.reverse.dropWhile pyIsSpace).reverse

/-- Python `str.strip()`. -/
def pyStrip (t : Str) : Str := pyRstrip (pyLstrip t)

/-- Resolve one Python slice bound against a length (negative bounds count
from the end; out-of-range bounds clamp). -/
def pySliceIndex (len : Nat) (i : Int) : Nat :=
  if i < 0 then (if (len : Int) + i < 0 then 0 else ((len : Int) + i).toNat)
  else min i.toNat len

/-- Python `t[a:b]` for integer bounds. -/
def pySlice (t : Str) (a b : Int) : Str :=
  (t.take (pySliceIndex t.length b)).drop (pySliceIndex t.length a)

/-! ### The JSON value model

`json.loads` is modelled by a total fuelled parser over `List Char`,
following CPython's `json` decoder in its default (strict) configuration.
Numeric literals are carried verbatim in `Json.num` (exact for integers;
Python converts the literal to an `int`/`float` value, a distinction no
claim here depends on).  Two CPython fringe behaviours are out of the
model's scope: lone UTF-16 surrogates in `\uXXXX` escapes (representable
in Python strings but not as Lean `Char` scalar values; such escapes are
rejected here) and non-ASCII Unicode digits inside numeric literals. -/

inductive Json where
  | null : Json
  | bool (b : Bool) : Json
  | num (lit : Str) : Json
  | str (s : Str) : Json
  | arr (elems : List Json) : Json
  | obj (members : List (Str × Json)) : Json

/-- The JSON whitespace characters skipped by the decoder. -/
def jsonIsWs (c : Char) : Bool := c == ' ' || c == '\t' || c == '\n' || c == '\r'

def jsonSkipWs (s : Str) : Str := s.dropWhile jsonIsWs

/-- Value of one hex digit. -/
def hexVal? (c : Char) : Option Nat :=
  if 48 ≤ c.toNat ∧ c.toNat ≤ 57 then some (c.toNat - 48)
  else if 97 ≤ c.toNat ∧ c.toNat ≤ 102 then some (c.toNat - 87)
  else if 65 ≤ c.toNat ∧ c.toNat ≤ 70 then some (c.toNat - 55)
  else none

def hexQuad? (a b c d : Char) : Option Nat :=
  match hexVal? a, hexVal? b, hexVal? c, hexVal? d with
  | some x, some y, some z, some w => some (4096 * x + 256 * y + 16 * z + w)
  | _, _, _, _ => none

/-- The two-character backslash escapes accepted inside JSON strings. -/
def escapeChar? (e : Char) : Option Char :=
  if e == '"' then some '"'
  else if e == '\\' then some '\\'
  else if e == '/' then some '/'
  else if e == 'b' then some '\x08'
  else if e == 'f' then some '\x0c'
  else if e == 'n' then some '\n'
  else if e == 'r' then some '\r'
  else if e == 't' then some '\t'
  else none

/-- Body of a JSON string literal, after the opening quote: returns the
decoded characters and the input remaining after the closing quote.
Raw control characters are rejected (strict mode). -/
def parseStringBody : Str → Option (Str × Str)
  | [] => none
  | c :: rest =>
    if c == '"' then some ([], rest)
    else if c == '\\' then
      match rest with
      | [] => none
      | 'u' :: tail =>
        match tail with
        | h1 :: h2 :: h3 :: h4 :: tail2 =>
          match hexQuad? h1 h2 h3 h4 with
          | none => none
          | some n =>
            if 55296 ≤ n ∧ n ≤ 56319 then
              match tail2 with
              | '\\' :: 'u' :: g1 :: g2 :: g3 :: g4 :: tail3 =>
                match hexQuad? g1 g2 g3 g4 with
                | some m =>
                  if 56320 ≤ m ∧ m ≤ 57343 then
                    (parseStringBody tail3).map
                      (fun p => (Char.ofNat (65536 + (n - 55296) * 1024 + (m - 56320)) :: p.1, p.2))
                  else none
                | none => none
              | _ => none
            else if 56320 ≤ n ∧ n ≤ 57343 then none
            else (parseStringBody tail2).map (fun p => (Char.ofNat n :: p.1, p.2))
        | _ => none
      | e :: tail =>
        match escapeChar? e with
        | some ec => (parseStringBody tail).map (fun p => (ec :: p.1, p.2))
        | none => none
    else if c.toNat < 32 then none
    else (parseStringBody rest).map (fun p => (c :: p.1, p.2))

/-- Integer part of a JSON number: `0` or a nonzero digit followed by digits. -/
def parseIntPart (s : Str) : Option (Str × Str) :=
  match s with
  | [] => none
  | c :: t =>
    if c == '0' then some (['0'], t)
    else if 49 ≤ c.toNat ∧ c.toNat ≤ 57 then
      some (c :: t.takeWhile Char.isDigit, t.dropWhile Char.isDigit)
    else none

/-- Optional fraction group `.digits` (not consumed unless complete). -/
def parseFracPart (s : Str) : Str × Str :=
  match s with
  | '.' :: u =>
    let ds := u.takeWhile Char.isDigit
    if ds.isEmpty then ([], '.' :: u) else ('.' :: ds, u.dropWhile Char.isDigit)
  | _ => ([], s)

/-- Optional exponent group `[eE][+-]?digits` (not consumed unless complete). -/
def parseExpPart (s : Str) : Str × Str :=
  match s with
  | [] => ([], [])
  | e :: u =>
    if e == 'e' || e == 'E' then
      match u with
      | [] => ([], [e])
      | sgn :: u2 =>
        if sgn == '+' || sgn == '-' then
          let ds := u2.takeWhile Char.isDigit
          if ds.isEmpty then ([], e :: sgn :: u2)
          else (e :: sgn :: ds, u2.dropWhile Char.isDigit)
        else
          let ds := u.takeWhile Char.isDigit
          if ds.isEmpty then ([], e :: u) else (e :: ds, u.dropWhile Char.isDigit)
    else ([], e :: u)

/-- Maximal match of CPython's `NUMBER_RE` at the head of the input:
returns the matched literal and the remaining input. -/
def parseNumberLit (s : Str) : Option (Str × Str) :=
  match s with
  | '-' :: t =>
    match parseIntPart t with
    | some (ip, r1) =>
      let fr := parseFracPart r1
      let ex := parseExpPart fr.2
      some ('-' :: ip ++ fr.1 ++ ex.1, ex.2)
    | none => none
  | _ =>
    match parseIntPart s with
    | some (ip, r1) =>
      let fr := parseFracPart r1
      let ex := parseExpPart fr.2
      some (ip ++ fr.1 ++ ex.1, ex.2)
    | none => none

/-- Insertion with Python `dict` semantics: an existing key keeps its
position and gets the new value, a new key is appended. -/
def objInsert (kvs : List (Str × Json)) (k : Str) (v : Json) : List (Str × Json) :=
  match kvs with
  | [] => [(k, v)]
  | (k0, v0) :: rest => if k0 == k then (k0, v) :: rest else (k0, v0) :: objInsert rest k v

mutual

/-- One JSON value at the head of the input (CPython `scan_once`; the
caller has already skipped any leading whitespace). -/
def parseValue : Nat → Str → Option (Json × Str)
  | 0, _ => none
  | fuel + 1, s =>
    match s with
    | [] => none
    | c :: rest =>
      if c == '\x7b' then
        match jsonSkipWs rest with
        | '\x7d' :: r2 => some (Json.obj [], r2)
        | r => parseMembers fuel r []
      else if c == '[' then
        match jsonSkipWs rest with
        | ']' :: r2 => some (Json.arr [], r2)
        | r => parseItems fuel r []
      else if c == '"' then
        (parseStringBody rest).map (fun p => (Json.str p.1, p.2))
      else if c == 'n' then
        if ("ull".toList).isPrefixOf rest then some (Json.null, rest.drop 3) else none
      else if c == 't' then
        if ("rue".toList).isPrefixOf rest then some (Json.bool true, rest.drop 3) else none
      else if c == 'f' then
        if ("alse".toList).isPrefixOf rest then some (Json.bool false, rest.drop 4) else none
      else
        match parseNumberLit (c :: rest) with
        | some (lit, r) => some (Json.num lit, r)
        | none =>
          if c == 'N' then
            if ("aN".toList).isPrefixOf rest then some (Json.num "NaN".toList, rest.drop 2)
            else none
          else if c == 'I' then
            if ("nfinity".toList).isPrefixOf rest then
              some (Json.num "Infinity".toList, rest.drop 7)
            else none
          else if c == '-' then
            if ("Infinity".toList).isPrefixOf rest then
              some (Json.num "-Infinity".toList, rest.drop 8)
            else none
          else none

/-- Members of a JSON object after `{` and whitespace: the input must
start at a `"`-opened key. -/
def parseMembers : Nat → Str → List (Str × Json) → Option (Json × Str)
  | 0, _, _ => none
  | fuel + 1, s, acc =>
    match s with
    | '"' :: rest =>
      match parseStringBody rest with
      | none => none
      | some (key, r1) =>
        match jsonSkipWs r1 with
        | ':' :: r3 =>
          match parseValue fuel (jsonSkipWs r3) with
          | none => none
          | some (v, r4) =>
            match jsonSkipWs r4 with
            | '\x7d' :: r6 => some (Json.obj (objInsert acc key v), r6)
            | ',' :: r6 => parseMembers fuel (jsonSkipWs r6) (objInsert acc key v)
            | _ => none
        | _ => none
    | _ => none

/-- Items of a JSON array after `[` and whitespace (the nonempty case). -/
def parseItems : Nat → Str → List Json → Option (Json × Str)
  | 0, _, _ => none
  | fuel + 1, s, acc =>
    match parseValue fuel s with
    | none => none
    | some (v, r1) =>
      match jsonSkipWs r1 with
      | ']' :: r3 => some (Json.arr (acc ++ [v]), r3)
      | ',' :: r3 => parseItems fuel (jsonSkipWs r3) (acc ++ [v])
      | _ => none

end

/-- Python `json.loads`: leading and trailing whitespace allowed, exactly
one value.  The fuel `2 * length + 2` dominates the recursion depth of
any successful parse (at least one character is consumed per two fuel
units), so it never cuts off a parse that would succeed. -/
def json_loads (s : Str) : Option Json :=
  match parseValue (2 * s.length + 2) (jsonSkipWs s) with
  | some (v, rest) => if (jsonSkipWs rest).isEmpty then some v else none
  | none => none

/-! ### `json.dumps(..., indent=2)` -/

def jsonSpaces (n : Nat) : Str := List.replicate n ' '

def hexDigitChar (n : Nat) : Char :=
  if n < 10 then Char.ofNat (48 + n) else Char.ofNat (97 + (n - 10))

/-- `\uXXXX` escape with lowercase hex, as CPython emits. -/
def uEscape (n : Nat) : Str :=
  ['\\', 'u', hexDigitChar (n / 4096 % 16), hexDigitChar (n / 256 % 16),
   hexDigitChar (n / 16 % 16), hexDigitChar (n % 16)]

/-- Escaping of one character under `ensure_ascii=True` (the default):
everything outside `0x20`–`0x7e` is `\u`-escaped, astral characters as a
surrogate pair. -/
def pyEscapeChar (c : Char) : Str :=
  if c == '"' then ['\\', '"']
  else if c == '\\' then ['\\', '\\']
  else if c == '\n' then ['\\', 'n']
  else if c == '\r' then ['\\', 'r']
  else if c == '\t' then ['\\', 't']
  else if c == '\x08' then ['\\', 'b']
  else if c == '\x0c' then ['\\', 'f']
  else if c.toNat < 32 then uEscape c.toNat
  else if c.toNat < 127 then [c]
  else if c.toNat < 65536 then uEscape c.toNat
  else uEscape (55296 + (c.toNat - 65536) / 1024) ++ uEscape (56320 + (c.toNat - 65536) % 1024)

def jsonEscape : Str → Str
  | [] => []
  | c :: rest => pyEscapeChar c ++ jsonEscape rest

/-- A serialized JSON string literal. -/
def dumpsString (s : Str) : Str := '"' :: jsonEscape s ++ ['"']

mutual

/-- `json.dumps(v, indent=2)` at nesting level `lvl` (numeric values are
re-emitted as their source literal; exact for integers). -/
def dumpsValue (lvl : Nat) : Json → Str
  | Json.null => "null".toList
  | Json.bool true => "true".toList
  | Json.bool false => "false".toList
  | Json.num lit => lit
  | Json.str s => dumpsString s
  | Json.arr [] => "[]".toList
  | Json.arr (e :: es) =>
    '[' :: '\n' :: jsonSpaces (2 * (lvl + 1)) ++ dumpsItemsOut (lvl + 1) (e :: es) ++
      '\n' :: jsonSpaces (2 * lvl) ++ [']']
  | Json.obj [] => "\x7b\x7d".toList
  | Json.obj (m :: ms) =>
    '\x7b' :: '\n' :: jsonSpaces (2 * (lvl + 1)) ++ dumpsMembersOut (lvl + 1) (m :: ms) ++
      '\n' :: jsonSpaces (2 * lvl) ++ ['\x7d']

def dumpsItemsOut (lvl : Nat) : List Json → Str
  | [] => []
  | [e] => dumpsValue lvl e
  | e :: es => dumpsValue lvl e ++ ',' :: '\n' :: jsonSpaces (2 * lvl) ++ dumpsItemsOut lvl es

def dumpsMembersOut (lvl : Nat) : List (Str × Json) → Str
  | [] => []
  | [(k, v)] => dumpsString k ++ ':' :: ' ' :: dumpsValue lvl v
  | (k, v) :: ms =>
    dumpsString k ++ ':' :: ' ' :: dumpsValue lvl v ++
      ',' :: '\n' :: jsonSpaces (2 * lvl) ++ dumpsMembersOut lvl ms

end

/-- `json.dumps(v, indent=2)` as used by the tool handlers. -/
def json_dumps_indent2 (v : Json) : Str := dumpsValue 0 v

/-! ### The response normalizer (`extract_json_from_response`) -/

def parseFailureMsg : Str := "Failed to parse JSON from model".toList

def errorKeyStr : Str := "error".toList

def rawResponseKey : Str := "raw_response".toList

/-- The error envelope returned when the candidate fails to parse. -/
def jsonErrorEnvelope (text : Str) : Json :=
  Json.obj [(errorKeyStr, Json.str parseFailureMsg), (rawResponseKey, Json.str text)]

/-- The candidate JSON string computed by `extract_json_from_response`
(the local `json_str`): slice from just past the first occurrence of
`'''json` to the last occurrence of `'''` and strip, or the whole text
when no opener is found. -/
def codeCandidate (text : Str) : Str :=
  let json_markdown_start := strFind text openFence
  if json_markdown_start ≠ -1 then
    let json_markdown_end := strRfind text closeFence
    pyStrip (pySlice text (json_markdown_start + 7) json_markdown_end)
  else text

/-- `extract_json_from_response` from `crypto_mcp.py`: parse the
candidate; on any parse failure return the error envelope (the
`try`/`except` catches the decoder error; nothing escapes). -/
def extract_json_from_response (text : Str) : Json :=
  match json_loads (codeCandidate text) with
  | some v => v
  | none => jsonErrorEnvelope text

/-! ### Spec-side formulation of the extraction step (for claim C1) -/

instance existsOccDecidable (pat t : Str) : Decidable (∃ i, OccursAt pat t i) :=
  match h : findOcc pat t with
  | some i => isTrue ⟨i, ((findOcc_eq_some_iff pat t i).mp h).1⟩
  | none => isFalse (fun hc => (findOcc_eq_none_iff pat t).mp h hc.choose hc.choose_spec)

/-- The candidate as §4.3 words it: if the opener occurs, the substring
from just after its first occurrence up to the last occurrence of the
closer in the entire text, surrounding whitespace trimmed; otherwise the
whole text. -/
def specCandidate (text : Str) : Str :=
  if h : ∃ i, OccursAt openFence text i then
    pyStrip ((text.take (Nat.findGreatest (fun j => OccursAt closeFence text j)
      text.length)).drop (Nat.find h + 7))
  else text

/-- The normalizer as the spec describes it: strictly JSON-parse the
spec-side candidate, fall back to the error envelope. -/
def specNormalize (text : Str) : Json :=
  match json_loads (specCandidate text) with
  | some v => v
  | none => jsonErrorEnvelope text

/-! ### Helper lemmas connecting the scanners to first/last occurrences -/

theorem occursAt_of_isPrefixOf (p q t : Str) (i : Nat) (hpq : p.isPrefixOf q = true)
    (h : OccursAt q t i) : OccursAt p t i := by
  unfold OccursAt at h ⊢
  have h1 := (List.isPrefixOf_iff_prefix).mp hpq
  have h2 := (List.isPrefixOf_iff_prefix).mp h
  exact (List.isPrefixOf_iff_prefix).mpr (h1.trans h2)

theorem strFind_eq_ofNat_iff (t pat : Str) (i : Nat) :
    strFind t pat = (i : Int) ↔ findOcc pat t = some i := by
  unfold strFind
  cases hk : findOcc pat t with
  | none =>
    simp only [Option.elim]
    constructor
    · intro h; exfalso; omega
    · intro h; exact absurd h (by simp)
  | some k =>
    simp only [Option.elim]
    constructor
    · intro h
      have : k = i := by omega
      rw [this]
    · intro h
      have : k = i := by simpa using h
      rw [this]

theorem strFind_eq_negOne_iff (t pat : Str) :
    strFind t pat = -1 ↔ findOcc pat t = none := by
  unfold strFind
  cases hk : findOcc pat t with
  | none => simp [Option.elim]
  | some k =>
    simp only [Option.elim]
    constructor
    · intro h; exfalso; omega
    · intro h; exact absurd h (by simp)

theorem strRfind_eq_ofNat_iff (t pat : Str) (i : Nat) :
    strRfind t pat = (i : Int) ↔ rfindOcc pat t = some i := by
  unfold strRfind
  cases hk : rfindOcc pat t with
  | none =>
    simp only [Option.elim]
    constructor
    · intro h; exfalso; omega
    · intro h; exact absurd h (by simp)
  | some k =>
    simp only [Option.elim]
    constructor
    · intro h
      have : k = i := by omega
      rw [this]
    · intro h
      have : k = i := by simpa using h
      rw [this]

/-- A Python slice with nonnegative bounds is take-then-drop. -/
theorem pySlice_natCast (t : Str) (a b : Nat) :
    pySlice t (a : Int) (b : Int) = (t.take b).drop a := by
  unfold pySlice pySliceIndex
  have ha : ¬((a : Int) < 0) := by omega
  have hb : ¬((b : Int) < 0) := by omega
  rw [if_neg ha, if_neg hb]
  have hta : (a : Int).toNat = a := Int.toNat_natCast a
  have htb : (b : Int).toNat = b := Int.toNat_natCast b
  rw [hta, htb]
  have h1 : t.take (min b t.length) = t.take b := by
    rcases le_total b t.length with h | h
    · rw [min_eq_left h]
    · rw [min_eq_right h, List.take_length, List.take_of_length_le h]
  rw [h1]
  rcases le_total a t.length with h | h
  · rw [min_eq_left h]
  · rw [min_eq_right h]
    have hl : (t.take b).length ≤ t.length := by
      rw [List.length_take]; omega
    rw [List.drop_eq_nil_of_le hl, List.drop_eq_nil_of_le (by omega)]

/-- The closer is a prefix of the opener, so every opener occurrence is a
closer occurrence. -/
theorem closeFence_isPrefixOf_openFence : closeFence.isPrefixOf openFence = true := by decide

theorem closeFence_ne_nil : closeFence ≠ [] := by decide

theorem openFence_ne_nil : openFence ≠ [] := by decide

theorem openFence_length : openFence.length = 7 := by decide

/-- `i ≤ t.length` at any closer occurrence. -/
theorem occursAt_close_le_length (t : Str) (i : Nat) (h : OccursAt closeFence t i) :
    i ≤ t.length := by
  have := occursAt_add_length_le closeFence t i closeFence_ne_nil h
  omega

/-- Claim C1 (extraction step follows the spec algorithm).  The code's
candidate equals the spec-worded candidate (first opener occurrence,
last closer occurrence in the entire text, trimmed; whole text when no
opener), and the normalizer is exactly strict-parse-or-envelope of it. -/
theorem c1_extraction_follows_spec (text : Str) :
    codeCandidate text = specCandidate text ∧
    extract_json_from_response text = specNormalize text := by
  have hcand : codeCandidate text = specCandidate text := by
    by_cases h : ∃ i, OccursAt openFence text i
    · -- opener present
      have hfind : findOcc openFence text = some (Nat.find h) := by
        rw [findOcc_eq_some_iff]
        exact ⟨Nat.find_spec h, fun j hj => Nat.find_min h hj⟩
      have hstart : strFind text openFence = ((Nat.find h : Nat) : Int) :=
        (strFind_eq_ofNat_iff text openFence (Nat.find h)).mpr hfind
      -- the last closer occurrence
      have hocc0 : OccursAt closeFence text (Nat.find h) :=
        occursAt_of_isPrefixOf closeFence openFence text (Nat.find h)
          closeFence_isPrefixOf_openFence (Nat.find_spec h)
      have hex : ¬ (rfindOcc closeFence text = none) := by
        intro hn
        exact (rfindOcc_eq_none_iff closeFence text).mp hn (Nat.find h) hocc0
      cases hM : rfindOcc closeFence text with
      | none => exact absurd hM hex
      | some M =>
        obtain ⟨hoccM, hmaxM⟩ :=
          (rfindOcc_eq_some_iff closeFence text M closeFence_ne_nil).mp hM
        have hMlen : M ≤ text.length := occursAt_close_le_length text M hoccM
        have hMG : M = Nat.findGreatest (fun j => OccursAt closeFence text j) text.length := by
          have h1 : M ≤ Nat.findGreatest (fun j => OccursAt closeFence text j) text.length :=
            Nat.le_findGreatest hMlen hoccM
          by_cases h0 : Nat.findGreatest (fun j => OccursAt closeFence text j) text.length = 0
          · omega
          · have h2 : OccursAt closeFence text
                (Nat.findGreatest (fun j => OccursAt closeFence text j) text.length) :=
              Nat.findGreatest_of_ne_zero rfl h0
            have h3 := hmaxM _ h2
            omega
        have hend : strRfind text closeFence = ((M : Nat) : Int) :=
          (strRfind_eq_ofNat_iff text closeFence M).mpr hM
        unfold codeCandidate specCandidate
        rw [dif_pos h, hstart, hend]
        rw [if_pos (by omega)]
        have hcast : ((Nat.find h : Nat) : Int) + 7 = ((Nat.find h + 7 : Nat) : Int) := by
          push_cast; ring
        rw [hcast]
        simp only [pySlice_natCast]
        rw [← hMG]
    · -- no opener
      have hfind : findOcc openFence text = none :=
        (findOcc_eq_none_iff openFence text).mpr (fun j hj => h ⟨j, hj⟩)
      have hneg : strFind text openFence = -1 :=
        (strFind_eq_negOne_iff text openFence).mpr hfind
      unfold codeCandidate specCandidate
      rw [dif_neg h, hneg]
      simp
  refine ⟨hcand, ?_⟩
  unfold extract_json_from_response specNormalize
  rw [hcand]

/-- Claim C2 (the normalizer is total and returns exactly one of the two
shapes, keyed on the parse outcome of the candidate; in particular, text
with no fenced block and invalid bare JSON yields the error envelope).
Totality — no exception escapes — is inherent: `extract_json_from_response`
is a total function. -/
theorem c2_two_shapes (text : Str) :
    ((json_loads (codeCandidate text) = none ∧
        extract_json_from_response text = jsonErrorEnvelope text) ∨
      (∃ v, json_loads (codeCandidate text) = some v ∧
        extract_json_from_response text = v)) ∧
    (strFind text openFence = -1 → json_loads text = none →
      extract_json_from_response text = jsonErrorEnvelope text) := by
  constructor
  · cases hv : json_loads (codeCandidate text) with
    | none =>
      left
      refine ⟨rfl, ?_⟩
      unfold extract_json_from_response
      rw [hv]
    | some v =>
      right
      refine ⟨v, rfl, ?_⟩
      unfold extract_json_from_response
      rw [hv]
  · intro hneg hload
    have hcand : codeCandidate text = text := by
      unfold codeCandidate
      rw [hneg]
      simp
    unfold extract_json_from_response
    rw [hcand, hload]

/-- Witness for C2 at `"hello"`: no fenced block, invalid bare JSON, so
the error envelope comes back. -/
theorem c2_two_shapes_witness :
    extract_json_from_response "hello".toList = jsonErrorEnvelope "hello".toList :=
  (c2_two_shapes "hello".toList).2 rfl rfl

/-- Claim C3: whenever the candidate fails to parse, the result is the
error envelope with error string `"Failed to parse JSON from model"` (the
§4.3 variant) and the raw field (`raw_response`) equal to the whole
original input text. -/
theorem c3_error_envelope (text : Str)
    (h : json_loads (codeCandidate text) = none) :
    extract_json_from_response text =
      Json.obj [(errorKeyStr, Json.str parseFailureMsg), (rawResponseKey, Json.str text)] := by
  unfold extract_json_from_response
  rw [h]
  rfl

/-- Witness for C3 at a fenced block with invalid content: the raw field
is the whole original text, not just the extracted substring. -/
theorem c3_error_envelope_witness :
    extract_json_from_response "x```json notjson``` y".toList =
      Json.obj [(errorKeyStr, Json.str parseFailureMsg),
        (rawResponseKey, Json.str "x```json notjson``` y".toList)] :=
  c3_error_envelope "x```json notjson``` y".toList rfl

/-- Claim C10: when the opener occurs but no closer occurs at or after the
opener's end, the backwards search lands on the opener's own backticks,
the candidate is empty, and the normalizer returns the error envelope. -/
theorem c10_unclosed_fence (text : Str) (i : Nat)
    (hfind : strFind text openFence = (i : Int))
    (hnone : ∀ j, i + 7 ≤ j → ¬ OccursAt closeFence text j) :
    strRfind text closeFence = (i : Int) ∧
    codeCandidate text = [] ∧
    extract_json_from_response text = jsonErrorEnvelope text := by
  have hfo : findOcc openFence text = some i := (strFind_eq_ofNat_iff text openFence i).mp hfind
  have hocc : OccursAt openFence text i := ((findOcc_eq_some_iff openFence text i).mp hfo).1
  obtain ⟨u, hu⟩ := occursAt_drop_eq openFence text i hocc
  have hoccC : OccursAt closeFence text i :=
    occursAt_of_isPrefixOf closeFence openFence text i closeFence_isPrefixOf_openFence hocc
  have hmax : ∀ j, OccursAt closeFence text j → j ≤ i := by
    intro j hj
    by_contra hgt
    push_neg at hgt
    rcases Nat.lt_or_ge j (i + 7) with hlt | hge
    · -- j = i + k with 1 ≤ k ≤ 6 : impossible inside the opener
      obtain ⟨k, hk1, hk6, rfl⟩ : ∃ k, 1 ≤ k ∧ k ≤ 6 ∧ j = i + k :=
        ⟨j - i, by omega, by omega, by omega⟩
      have hdrop : List.drop (i + k) text = List.drop k (openFence ++ u) := by
        rw [← hu, List.drop_drop]
      unfold OccursAt at hj
      rw [hdrop] at hj
      interval_cases k
      · rw [show closeFence.isPrefixOf (List.drop 1 (openFence ++ u)) = false from rfl] at hj
        exact Bool.noConfusion hj
      · rw [show closeFence.isPrefixOf (List.drop 2 (openFence ++ u)) = false from rfl] at hj
        exact Bool.noConfusion hj
      · rw [show closeFence.isPrefixOf (List.drop 3 (openFence ++ u)) = false from rfl] at hj
        exact Bool.noConfusion hj
      · rw [show closeFence.isPrefixOf (List.drop 4 (openFence ++ u)) = false from rfl] at hj
        exact Bool.noConfusion hj
      · rw [show closeFence.isPrefixOf (List.drop 5 (openFence ++ u)) = false from rfl] at hj
        exact Bool.noConfusion hj
      · rw [show closeFence.isPrefixOf (List.drop 6 (openFence ++ u)) = false from rfl] at hj
        exact Bool.noConfusion hj
    · exact hnone j hge hj
  have hrf : rfindOcc closeFence text = some i :=
    (rfindOcc_eq_some_iff closeFence text i closeFence_ne_nil).mpr ⟨hoccC, hmax⟩
  have hrfind : strRfind text closeFence = (i : Int) :=
    (strRfind_eq_ofNat_iff text closeFence i).mpr hrf
  have hil : i + 7 ≤ text.length := by
    have := occursAt_add_length_le openFence text i openFence_ne_nil hocc
    rw [openFence_length] at this
    omega
  have hcand : codeCandidate text = [] := by
    unfold codeCandidate
    rw [hfind, hrfind]
    rw [if_pos (by omega)]
    have hcast : ((i : Nat) : Int) + 7 = ((i + 7 : Nat) : Int) := by push_cast; ring
    rw [hcast]
    simp only [pySlice_natCast]
    have h1 : (text.take i).length ≤ i + 7 := by
      rw [List.length_take]; omega
    rw [List.drop_eq_nil_of_le h1]
    rfl
  refine ⟨hrfind, hcand, ?_⟩
  unfold extract_json_from_response
  rw [hcand]
  rfl

/-- Witness for C10: `"'''json {\"a\": 1}"` — valid JSON after the opener
but no closer; the result is still the error envelope. -/
theorem c10_unclosed_fence_witness :
    strRfind "```json \x7b\"a\": 1\x7d".toList closeFence = (0 : Int) ∧
    codeCandidate "```json \x7b\"a\": 1\x7d".toList = [] ∧
    extract_json_from_response "```json \x7b\"a\": 1\x7d".toList =
      jsonErrorEnvelope "```json \x7b\"a\": 1\x7d".toList := by
  have h0 : ((0 : Nat) : Int) = (0 : Int) := rfl
  refine h0 ▸ c10_unclosed_fence "```json \x7b\"a\": 1\x7d".toList 0 rfl ?_
  intro j hj hocc
  have hlen := occursAt_add_length_le closeFence "```json \x7b\"a\": 1\x7d".toList j
    closeFence_ne_nil hocc
  have hlen16 : ("```json \x7b\"a\": 1\x7d".toList).length = 16 := by decide
  rw [hlen16] at hlen
  have hcl : closeFence.length = 3 := by decide
  rw [hcl] at hlen
  have hub : j ≤ 13 := by omega
  interval_cases j <;> revert hocc <;> decide

/-! ### Claim C4: round-trip through a fenced block -/

theorem openFence_getElem_zero : openFence[0]? = some backtickChar := by decide

theorem closeFence_getElem_two : closeFence[2]? = some backtickChar := by decide

/-- Claim C4: for any well-formed JSON payload embedded between the opener
and the final closer (no backtick in the surrounding text or the payload),
the normalizer returns exactly the parsed object, and the handler's
serialization of the result is `json.dumps(·, indent=2)` of that object —
a pure function of it, hence stable across identical inputs. -/
theorem c4_roundtrip (o : Json) (pre s post : Str)
    (hpre : backtickChar ∉ pre) (hpost : backtickChar ∉ post)
    (hparse : json_loads (pyStrip s) = some o) :
    extract_json_from_response (pre ++ (openFence ++ (s ++ (closeFence ++ post)))) = o ∧
    json_dumps_indent2
        (extract_json_from_response (pre ++ (openFence ++ (s ++ (closeFence ++ post))))) =
      json_dumps_indent2 o := by
  set t := pre ++ (openFence ++ (s ++ (closeFence ++ post))) with ht
  -- the opener's first occurrence is at |pre|
  have hoccO : OccursAt openFence t pre.length := by
    unfold OccursAt
    rw [ht, List.drop_left]
    exact (List.isPrefixOf_iff_prefix).mpr (List.prefix_append openFence _)
  have hminO : ∀ j, j < pre.length → ¬ OccursAt openFence t j := by
    intro j hj hocc
    have hchar : t[j + 0]? = openFence[0]? :=
      occursAt_getElem openFence t j 0 hocc (by rw [openFence_length]; omega)
    rw [openFence_getElem_zero] at hchar
    have hpre' : t[j]? = pre[j]? := by
      rw [ht]
      exact List.getElem?_append_left hj
    rw [show j + 0 = j from rfl, hpre'] at hchar
    exact hpre (List.getElem?_mem hchar)
  have hfo : findOcc openFence t = some pre.length :=
    (findOcc_eq_some_iff openFence t pre.length).mpr ⟨hoccO, hminO⟩
  have hfind : strFind t openFence = ((pre.length : Nat) : Int) :=
    (strFind_eq_ofNat_iff t openFence pre.length).mpr hfo
  -- the closer's last occurrence is at |pre| + 7 + |s|
  have htassoc : t = (pre ++ (openFence ++ s)) ++ (closeFence ++ post) := by
    rw [ht]
    simp [List.append_assoc]
  have hlenA : (pre ++ (openFence ++ s)).length = pre.length + 7 + s.length := by
    simp [List.length_append, openFence_length]
    omega
  have hoccC : OccursAt closeFence t (pre.length + 7 + s.length) := by
    unfold OccursAt
    rw [htassoc, ← hlenA, List.drop_left]
    exact (List.isPrefixOf_iff_prefix).mpr (List.prefix_append closeFence post)
  have hmaxC : ∀ j, OccursAt closeFence t j → j ≤ pre.length + 7 + s.length := by
    intro j hj
    by_contra hgt
    push_neg at hgt
    have hchar : t[j + 2]? = closeFence[2]? :=
      occursAt_getElem closeFence t j 2 hj (by decide)
    rw [closeFence_getElem_two] at hchar
    have htassoc2 : t = ((pre ++ (openFence ++ s)) ++ closeFence) ++ post := by
      rw [ht]
      simp [List.append_assoc]
    have hlenB : ((pre ++ (openFence ++ s)) ++ closeFence).length =
        pre.length + 7 + s.length + 3 := by
      rw [List.length_append, hlenA]
      rfl
    have hge : ((pre ++ (openFence ++ s)) ++ closeFence).length ≤ j + 2 := by
      rw [hlenB]; omega
    rw [htassoc2, List.getElem?_append_right hge] at hchar
    exact hpost (List.getElem?_mem hchar)
  have hrfo : rfindOcc closeFence t = some (pre.length + 7 + s.length) :=
    (rfindOcc_eq_some_iff closeFence t _ closeFence_ne_nil).mpr ⟨hoccC, hmaxC⟩
  have hrfind : strRfind t closeFence = ((pre.length + 7 + s.length : Nat) : Int) :=
    (strRfind_eq_ofNat_iff t closeFence _).mpr hrfo
  -- the candidate is exactly `pyStrip s`
  have hcand : codeCandidate t = pyStrip s := by
    unfold codeCandidate
    rw [hfind, hrfind]
    rw [if_pos (by omega)]
    have hcast : ((pre.length : Nat) : Int) + 7 = ((pre.length + 7 : Nat) : Int) := by
      push_cast; ring
    rw [hcast]
    simp only [pySlice_natCast]
    have htake : t.take (pre.length + 7 + s.length) = pre ++ (openFence ++ s) := by
      rw [htassoc, ← hlenA, List.take_left]
    rw [htake]
    have hdrop : (pre ++ (openFence ++ s)).drop (pre.length + 7) = s := by
      rw [← List.append_assoc]
      have h7 : pre.length + 7 = (pre ++ openFence).length := by
        rw [List.length_append, openFence_length]
      rw [h7, List.drop_left]
    rw [hdrop]
  have hres : extract_json_from_response t = o := by
    unfold extract_json_from_response
    rw [hcand, hparse]
  exact ⟨hres, by rw [hres]⟩

/-- Witness for C4: the spec's own end-to-end example, a fenced
`{"name": "RSI"}` with surrounding prose. -/
theorem c4_roundtrip_witness :
    extract_json_from_response
        ("Reply: ".toList ++ (openFence ++ ("\n\x7b\"name\": \"RSI\"\x7d\n".toList ++
          (closeFence ++ " done".toList)))) =
      Json.obj [("name".toList, Json.str "RSI".toList)] ∧
    json_dumps_indent2
        (extract_json_from_response
          ("Reply: ".toList ++ (openFence ++ ("\n\x7b\"name\": \"RSI\"\x7d\n".toList ++
            (closeFence ++ " done".toList))))) =
      json_dumps_indent2 (Json.obj [("name".toList, Json.str "RSI".toList)]) :=
  c4_roundtrip (Json.obj [("name".toList, Json.str "RSI".toList)])
    "Reply: ".toList "\n\x7b\"name\": \"RSI\"\x7d\n".toList " done".toList
    (by decide) (by decide) (by rfl)
/-! ### The prompt template and `str.format` (claim C9) -/

def promptSegA1 : Str := "\nYou are a world-class financial engineer and senior quantitative analyst. You have deep expertise in cryptocurrency trading, algorithmic strategies, advanced statistics, and machine learning models. \n\nYour task is to provide a comprehensive, implementation-fo".toList
def promptSegA2 : Str := "cused guide for an AI software developer on the following topic: \"".toList
def promptSegB11 : Str := "\"\n\nYou MUST follow these steps:\n1.  **Internal Research:** Use your built-in Google Search tool to conduct thorough research on the topic. Find the official definition, the underlying mathematical or logical formula, common use cases in the crypto domain, and ".toList
def promptSegB12 : Str := "popular Python implementations.\n2.  **Critical Synthesis:** Analyze the search results. Discard any promotional fluff, irrelevant information, or overly simplistic explanations. Synthesize the core, actionable knowledge.\n3.  **Structured Formatting:** You MUST".toList
def promptSegB13 : Str := " format your entire final answer as a single, valid JSON object. There should be NO text, explanation, or markdown outside of the ```json ... ``` block.\n\nThe JSON object must strictly follow this structure:\n".toList
def promptSegB21 : Str := "\n  \"name\": \"The full, official name of the concept.\",\n  \"description\": \"A clear, concise explanation of what the concept is and its primary purpose.\",\n  \"use_case_in_crypto\": \"Specific, practical applications of this concept for cryptocurrency analysis or trad".toList
def promptSegB22 : Str := "ing, based on your research.\",\n  \"components_or_formula\": \"The mathematical formula, key components, or logical steps explained clearly. This must be a string.\",\n  \"implementation_steps\": [\n    \"A numbered list of high-level steps for a developer to follow for".toList
def promptSegB23 : Str := " implementation.\",\n    \"Step 2...\",\n    \"Step 3...\"\n  ],\n  \"python_example\": \"A clean, well-commented, and practical Python code snippet demonstrating a common implementation. The code should be self-contained where possible.\",\n  \"key_considerations\": [\n      ".toList
def promptSegB24 : Str := "\"A list of potential pitfalls, limitations, or expert best practices to be aware of during implementation.\",\n      \"Consideration 2...\"\n  ]\n".toList
def promptSegB31 : Str := "\n\nNow, begin your research and provide the structured response for the specified topic.\n".toList

/-- The template text before the `(topic)` placeholder (brace-free). -/
def promptPrefix : Str := promptSegA1 ++ (promptSegA2)

def promptSufB1 : Str := promptSegB11 ++ (promptSegB12 ++ (promptSegB13))

def promptSufB2 : Str := promptSegB21 ++ (promptSegB22 ++ (promptSegB23 ++ (promptSegB24)))

def promptSufB3 : Str := promptSegB31

/-- The template text after the placeholder, verbatim: it contains one
doubled-brace escape pair around the JSON schema block. -/
def rawSuffix : Str :=
  promptSufB1 ++ ("\x7b\x7b".toList ++ (promptSufB2 ++ ("\x7d\x7d".toList ++ promptSufB3)))

/-- The template text after the placeholder as `str.format` renders it:
the doubled braces collapsed to single braces. -/
def promptSuffix : Str :=
  promptSufB1 ++ ('\x7b' :: (promptSufB2 ++ ('\x7d' :: promptSufB3)))

/-- The master prompt template, verbatim from the source: the text before
the single `(topic)` placeholder, the placeholder, and the raw text after
it.  Concatenated, this is byte-identical to the Python triple-quoted
string (which begins and ends with a newline). -/
def MASTER_PROMPT : Str := promptPrefix ++ ("\x7btopic\x7d".toList ++ rawSuffix)

/-- Python `str.format` with the single keyword `topic`, specialised to
templates that use only `(topic)` replacement fields and doubled-brace
escapes: `{{`/`}}` collapse to one literal brace, `{topic}` splices the
value verbatim (inserted values are not re-scanned).  Any other
replacement field or stray brace raises in Python; that branch
(unreachable for `MASTER_PROMPT`) is mapped to the empty string. -/
def pyFormatTopic : Str → Str → Str
  | [], _ => []
  | c :: rest, v =>
    if c == '\x7b' then
      match rest with
      | '\x7b' :: rest2 => '\x7b' :: pyFormatTopic rest2 v
      | 't' :: 'o' :: 'p' :: 'i' :: 'c' :: '\x7d' :: rest2 => v ++ pyFormatTopic rest2 v
      | _ => []
    else if c == '\x7d' then
      match rest with
      | '\x7d' :: rest2 => '\x7d' :: pyFormatTopic rest2 v
      | _ => []
    else c :: pyFormatTopic rest v

/-- `MASTER_PROMPT.format(topic=topic)` as the handlers render it. -/
def renderPrompt (topic : Str) : Str := pyFormatTopic MASTER_PROMPT topic

/-- Number of (possibly overlapping) occurrences of `pat` in `t`. -/
def countOcc (t pat : Str) : Nat :=
  ((List.range (t.length + 1)).filter (fun i => pat.isPrefixOf (t.drop i))).length

theorem pyFormatTopic_cons (c : Char) (rest v : Str)
    (h1 : (c == '\x7b') = false) (h2 : (c == '\x7d') = false) :
    pyFormatTopic (c :: rest) v = c :: pyFormatTopic rest v := by
  rw [pyFormatTopic.eq_def]
  simp only [h1, h2]
  rfl

/-- Formatting walks over a brace-free segment unchanged. -/
theorem pyFormatTopic_chunk (seg X v : Str)
    (h : seg.all (fun c => !(c == '\x7b') && !(c == '\x7d')) = true) :
    pyFormatTopic (seg ++ X) v = seg ++ pyFormatTopic X v := by
  induction seg with
  | nil => simp
  | cons c cs ih =>
    rw [List.all_cons, Bool.and_eq_true] at h
    obtain ⟨hc, hcs⟩ := h
    rw [Bool.and_eq_true] at hc
    obtain ⟨h1, h2⟩ := hc
    rw [Bool.not_eq_true'] at h1 h2
    rw [List.cons_append, pyFormatTopic_cons c _ v h1 h2, ih hcs, List.cons_append]

theorem pyFormatTopic_plain (seg v : Str)
    (h : seg.all (fun c => !(c == '\x7b') && !(c == '\x7d')) = true) :
    pyFormatTopic seg v = seg := by
  have h2 := pyFormatTopic_chunk seg [] v h
  have h3 : pyFormatTopic ([] : Str) v = [] := rfl
  rw [h3, List.append_nil] at h2
  exact h2

theorem pyFormatTopic_topic (X v : Str) :
    pyFormatTopic ("\x7btopic\x7d".toList ++ X) v = v ++ pyFormatTopic X v := rfl

theorem pyFormatTopic_obrace (X v : Str) :
    pyFormatTopic ("\x7b\x7b".toList ++ X) v = '\x7b' :: pyFormatTopic X v := rfl

theorem pyFormatTopic_cbrace (X v : Str) :
    pyFormatTopic ("\x7d\x7d".toList ++ X) v = '\x7d' :: pyFormatTopic X v := rfl

set_option maxRecDepth 8000 in
/-- The rendered prompt decomposes as fixed prefix, the topic verbatim,
fixed suffix (with the template's doubled braces collapsed). -/
theorem renderPrompt_decomposition (topic : Str) :
    renderPrompt topic = promptPrefix ++ (topic ++ promptSuffix) := by
  unfold renderPrompt MASTER_PROMPT promptPrefix rawSuffix promptSuffix
  unfold promptSufB1 promptSufB2 promptSufB3
  simp only [List.append_assoc]
  rw [pyFormatTopic_chunk promptSegA1 _ topic (by decide)]
  rw [pyFormatTopic_chunk promptSegA2 _ topic (by decide)]
  rw [pyFormatTopic_topic]
  rw [pyFormatTopic_chunk promptSegB11 _ topic (by decide)]
  rw [pyFormatTopic_chunk promptSegB12 _ topic (by decide)]
  rw [pyFormatTopic_chunk promptSegB13 _ topic (by decide)]
  rw [pyFormatTopic_obrace]
  rw [pyFormatTopic_chunk promptSegB21 _ topic (by decide)]
  rw [pyFormatTopic_chunk promptSegB22 _ topic (by decide)]
  rw [pyFormatTopic_chunk promptSegB23 _ topic (by decide)]
  rw [pyFormatTopic_chunk promptSegB24 _ topic (by decide)]
  rw [pyFormatTopic_cbrace]
  rw [pyFormatTopic_plain promptSegB31 topic (by decide)]

/-- Two distinct occurrences push the occurrence count to at least 2. -/
theorem two_le_countOcc (t pat : Str) (i j : Nat) (hij : i ≠ j) (hp : pat ≠ [])
    (hi : OccursAt pat t i) (hj : OccursAt pat t j) : 2 ≤ countOcc t pat := by
  have hib : i ≤ t.length := by
    have := occursAt_add_length_le pat t i hp hi
    omega
  have hjb : j ≤ t.length := by
    have := occursAt_add_length_le pat t j hp hj
    omega
  have hmi : i ∈ (List.range (t.length + 1)).filter (fun k => pat.isPrefixOf (t.drop k)) :=
    List.mem_filter.mpr ⟨List.mem_range.mpr (by omega), hi⟩
  have hmj : j ∈ (List.range (t.length + 1)).filter (fun k => pat.isPrefixOf (t.drop k)) :=
    List.mem_filter.mpr ⟨List.mem_range.mpr (by omega), hj⟩
  obtain ⟨l1, l2, hl⟩ := List.append_of_mem hmi
  unfold countOcc
  rw [hl]
  rw [hl] at hmj
  rcases List.mem_append.mp hmj with hj1 | hj2
  · have : l1.length ≠ 0 := by
      intro h0
      rw [List.length_eq_zero] at h0
      subst h0
      simp at hj1
    simp [List.length_append]
    omega
  · rcases List.mem_cons.mp hj2 with hje | hj3
    · exact absurd hje.symm hij
    · have : l2.length ≠ 0 := by
        intro h0
        rw [List.length_eq_zero] at h0
        subst h0
        simp at hj3
      simp [List.length_append]
      omega

/-- Claim C9, counterexample at topic `"a"`: the claim as stated fails —
the rendered prompt contains the topic substring far more than once (the
fixed text also contains `'a'`), and the output is not byte-identical to
the template outside the insertion (the template's doubled braces are
collapsed by `str.format`). -/
theorem c9_counterexample :
    countOcc (renderPrompt ['a']) ['a'] ≠ 1 ∧
    renderPrompt ['a'] ≠ promptPrefix ++ (['a'] ++ rawSuffix) := by
  constructor
  · have h5 : OccursAt ['a'] (renderPrompt ['a']) 5 := by decide
    have h9 : OccursAt ['a'] (renderPrompt ['a']) 9 := by decide
    have h2 := two_le_countOcc (renderPrompt ['a']) ['a'] 5 9 (by omega) (by decide) h5 h9
    omega
  · intro heq
    rw [renderPrompt_decomposition] at heq
    have h1 : promptSuffix = rawSuffix :=
      List.append_cancel_left (List.append_cancel_left heq)
    unfold promptSuffix rawSuffix at h1
    have h2 : '\x7b' :: (promptSufB2 ++ ('\x7d' :: promptSufB3)) =
        "\x7b\x7b".toList ++ (promptSufB2 ++ ("\x7d\x7d".toList ++ promptSufB3)) :=
      List.append_cancel_left h1
    rw [show ("\x7b\x7b".toList : Str) ++ (promptSufB2 ++ ("\x7d\x7d".toList ++ promptSufB3)) =
      '\x7b' :: ('\x7b' :: (promptSufB2 ++ ("\x7d\x7d".toList ++ promptSufB3))) from rfl] at h2
    have h3 : promptSufB2 ++ ('\x7d' :: promptSufB3) =
        '\x7b' :: (promptSufB2 ++ ("\x7d\x7d".toList ++ promptSufB3)) := by
      injection h2
    have h4 := congrArg List.head? h3
    rw [show (promptSufB2 ++ ('\x7d' :: promptSufB3)).head? = some '\n' from rfl] at h4
    rw [show ('\x7b' :: (promptSufB2 ++ ("\x7d\x7d".toList ++ promptSufB3))).head? =
      some '\x7b' from rfl] at h4
    simp at h4

/-- Claim C9 (amended): for every non-empty topic, the rendered prompt is
the fixed prefix, then the topic verbatim at the placeholder position,
then the fixed suffix — where the suffix is the template's tail with its
doubled-brace escapes collapsed to single braces by `str.format`; the
topic substring may additionally occur inside the fixed parts. -/
theorem c9_prompt_rendering (topic : Str) (_h : topic ≠ []) :
    renderPrompt topic = promptPrefix ++ (topic ++ promptSuffix) :=
  renderPrompt_decomposition topic

/-- Witness for the amended C9 at topic `"RSI"`. -/
theorem c9_prompt_rendering_witness :
    "RSI".toList ≠ [] ∧
    renderPrompt "RSI".toList = promptPrefix ++ ("RSI".toList ++ promptSuffix) :=
  ⟨by decide, c9_prompt_rendering "RSI".toList (by decide)⟩

/-! ### The tool dispatcher (`handle_call_tool`) and resource reader

The external model call (`client.models.generate_content(...)` followed by
`response.text`) is the one effectful, fallible step; it is abstracted as
an oracle `Str → ModelOutcome` (`exc` carries `str(e)` of a raised
exception).  The handler returns its `TextContent` list together with the
list of prompts actually sent to the model, so "performs no external model
call" is expressible as an empty call log.  Argument values are modelled
as strings (each tool reads one string field). -/

inductive ModelOutcome where
  | ok (text : Str) : ModelOutcome
  | exc (msg : Str) : ModelOutcome

structure TextContent where
  type : Str
  text : Str
deriving DecidableEq

def textType : Str := "text".toList

def explainToolName : Str := "explain_crypto_concept".toList

def strategyToolName : Str := "get_crypto_strategy".toList

def indicatorToolName : Str := "analyze_crypto_indicator".toList

def topicKey : Str := "topic".toList

def strategyTypeKey : Str := "strategy_type".toList

def indicatorKey : Str := "indicator".toList

def topicRequiredMsg : Str := "Error: Topic is required".toList

def strategyRequiredMsg : Str := "Error: Strategy type is required".toList

def indicatorRequiredMsg : Str := "Error: Indicator is required".toList

def errorPrefixStr : Str := "Error: ".toList

def unknownToolPrefix : Str := "Unknown tool: ".toList

def strategyTopicPrefix : Str := "cryptocurrency trading strategy: ".toList

def indicatorTopicPrefix : Str := "cryptocurrency technical indicator: ".toList

/-- Python `arguments.get(key, "")`. -/
def dictGet (arguments : List (Str × Str)) (k : Str) : Str :=
  (arguments.lookup k).getD []

/-- `handle_call_tool` from `crypto_mcp.py`.  Result: the returned
`TextContent` list and the log of prompts sent to the model.  Each branch
mirrors the source: `arguments.get(field, "")`, the falsiness check
`if not value`, prompt rendering, the model call, normalization, and
`json.dumps(..., indent=2)`; the `except Exception` arm turns a raised
exception into the text `"Error: <message>"`. -/
def handle_call_tool (model : Str → ModelOutcome) (name : Str)
    (arguments : List (Str × Str)) : List TextContent × List Str :=
  if name = explainToolName then
    if dictGet arguments topicKey = [] then ([⟨textType, topicRequiredMsg⟩], [])
    else
      match model (renderPrompt (dictGet arguments topicKey)) with
      | ModelOutcome.ok t =>
        ([⟨textType, json_dumps_indent2 (extract_json_from_response t)⟩],
         [renderPrompt (dictGet arguments topicKey)])
      | ModelOutcome.exc m =>
        ([⟨textType, errorPrefixStr ++ m⟩], [renderPrompt (dictGet arguments topicKey)])
  else if name = strategyToolName then
    if dictGet arguments strategyTypeKey = [] then ([⟨textType, strategyRequiredMsg⟩], [])
    else
      match model (renderPrompt (strategyTopicPrefix ++ dictGet arguments strategyTypeKey)) with
      | ModelOutcome.ok t =>
        ([⟨textType, json_dumps_indent2 (extract_json_from_response t)⟩],
         [renderPrompt (strategyTopicPrefix ++ dictGet arguments strategyTypeKey)])
      | ModelOutcome.exc m =>
        ([⟨textType, errorPrefixStr ++ m⟩],
         [renderPrompt (strategyTopicPrefix ++ dictGet arguments strategyTypeKey)])
  else if name = indicatorToolName then
    if dictGet arguments indicatorKey = [] then ([⟨textType, indicatorRequiredMsg⟩], [])
    else
      match model (renderPrompt (indicatorTopicPrefix ++ dictGet arguments indicatorKey)) with
      | ModelOutcome.ok t =>
        ([⟨textType, json_dumps_indent2 (extract_json_from_response t)⟩],
         [renderPrompt (indicatorTopicPrefix ++ dictGet arguments indicatorKey)])
      | ModelOutcome.exc m =>
        ([⟨textType, errorPrefixStr ++ m⟩],
         [renderPrompt (indicatorTopicPrefix ++ dictGet arguments indicatorKey)])
  else ([⟨textType, unknownToolPrefix ++ name⟩], [])

def cryptoKnowledgeUri : Str := "gemini://crypto-knowledge".toList

def unknownResourcePrefix : Str := "Unknown resource: ".toList

/-- The static resource payload from `handle_read_resource`. -/
def knowledgeBase : Json :=
  Json.obj [
    ("description".toList,
      Json.str "Gemini-powered cryptocurrency and quantitative finance knowledge base".toList),
    ("capabilities".toList, Json.arr [
      Json.str "Cryptocurrency concept explanations".toList,
      Json.str "Trading strategy analysis".toList,
      Json.str "Technical indicator implementation".toList,
      Json.str "Quantitative finance methods".toList,
      Json.str "Python code examples".toList]),
    ("usage".toList,
      Json.str "Use the available tools to get detailed explanations and implementations".toList)]

/-- `handle_read_resource` from `crypto_mcp.py`: the fixed identifier
returns the descriptor pretty-printed with `json.dumps(..., indent=2)`,
any other identifier raises `ValueError` (modelled as `Except.error`). -/
def handle_read_resource (uri : Str) : Except Str Str :=
  if uri = cryptoKnowledgeUri then Except.ok (json_dumps_indent2 knowledgeBase)
  else Except.error (unknownResourcePrefix ++ uri)

/-- Object member lookup in a parsed JSON value. -/
def objGet (v : Json) (k : Str) : Option Json :=
  match v with
  | Json.obj members => members.lookup k
  | _ => none

/-- Claim C5: every tool call returns a single ordinary text content and
never propagates an exception: whenever the model call raised (the call
log holds the prompt and the oracle yields `exc`), the text is
`"Error: <message>"`. -/
theorem c5_no_exception_propagation (model : Str → ModelOutcome) (name : Str)
    (arguments : List (Str × Str)) :
    ∃ s, (handle_call_tool model name arguments).1 = [⟨textType, s⟩] ∧
      ∀ p m, (handle_call_tool model name arguments).2 = [p] →
        model p = ModelOutcome.exc m → s = errorPrefixStr ++ m := by
  unfold handle_call_tool
  by_cases h1 : name = explainToolName
  · rw [if_pos h1]
    by_cases h2 : dictGet arguments topicKey = []
    · rw [if_pos h2]
      exact ⟨topicRequiredMsg, rfl, fun p m hp _ => by simp at hp⟩
    · rw [if_neg h2]
      cases hmo : model (renderPrompt (dictGet arguments topicKey)) with
      | ok t =>
        refine ⟨json_dumps_indent2 (extract_json_from_response t), rfl, ?_⟩
        intro p m hp hexc
        have hpe : p = renderPrompt (dictGet arguments topicKey) := by
          simpa using hp.symm
        rw [hpe, hmo] at hexc
        exact ModelOutcome.noConfusion hexc
      | exc m0 =>
        refine ⟨errorPrefixStr ++ m0, rfl, ?_⟩
        intro p m hp hexc
        have hpe : p = renderPrompt (dictGet arguments topicKey) := by
          simpa using hp.symm
        rw [hpe, hmo] at hexc
        have : m0 = m := by
          cases hexc
          rfl
        rw [this]
  · rw [if_neg h1]
    by_cases h2 : name = strategyToolName
    · rw [if_pos h2]
      by_cases h3 : dictGet arguments strategyTypeKey = []
      · rw [if_pos h3]
        exact ⟨strategyRequiredMsg, rfl, fun p m hp _ => by simp at hp⟩
      · rw [if_neg h3]
        cases hmo : model (renderPrompt (strategyTopicPrefix ++ dictGet arguments strategyTypeKey)) with
        | ok t =>
          refine ⟨json_dumps_indent2 (extract_json_from_response t), rfl, ?_⟩
          intro p m hp hexc
          have hpe : p = renderPrompt (strategyTopicPrefix ++ dictGet arguments strategyTypeKey) := by
            simpa using hp.symm
          rw [hpe, hmo] at hexc
          exact ModelOutcome.noConfusion hexc
        | exc m0 =>
          refine ⟨errorPrefixStr ++ m0, rfl, ?_⟩
          intro p m hp hexc
          have hpe : p = renderPrompt (strategyTopicPrefix ++ dictGet arguments strategyTypeKey) := by
            simpa using hp.symm
          rw [hpe, hmo] at hexc
          have : m0 = m := by
            cases hexc
            rfl
          rw [this]
    · rw [if_neg h2]
      by_cases h3 : name = indicatorToolName
      · rw [if_pos h3]
        by_cases h4 : dictGet arguments indicatorKey = []
        · rw [if_pos h4]
          exact ⟨indicatorRequiredMsg, rfl, fun p m hp _ => by simp at hp⟩
        · rw [if_neg h4]
          cases hmo : model (renderPrompt (indicatorTopicPrefix ++ dictGet arguments indicatorKey)) with
          | ok t =>
            refine ⟨json_dumps_indent2 (extract_json_from_response t), rfl, ?_⟩
            intro p m hp hexc
            have hpe : p = renderPrompt (indicatorTopicPrefix ++ dictGet arguments indicatorKey) := by
              simpa using hp.symm
            rw [hpe, hmo] at hexc
            exact ModelOutcome.noConfusion hexc
          | exc m0 =>
            refine ⟨errorPrefixStr ++ m0, rfl, ?_⟩
            intro p m hp hexc
            have hpe : p = renderPrompt (indicatorTopicPrefix ++ dictGet arguments indicatorKey) := by
              simpa using hp.symm
            rw [hpe, hmo] at hexc
            have : m0 = m := by
              cases hexc
              rfl
            rw [this]
      · rw [if_neg h3]
        exact ⟨unknownToolPrefix ++ name, rfl, fun p m hp _ => by simp at hp⟩

/-- Witness for C5: a model call that raises `"boom"` comes back as the
ordinary text `"Error: boom"`. -/
theorem c5_no_exception_propagation_witness :
    ∃ s, (handle_call_tool (fun _ => ModelOutcome.exc "boom".toList) explainToolName
        [(topicKey, "RSI".toList)]).1 = [⟨textType, s⟩] ∧
      s = errorPrefixStr ++ "boom".toList := by
  obtain ⟨s, hs, himp⟩ := c5_no_exception_propagation
    (fun _ => ModelOutcome.exc "boom".toList) explainToolName [(topicKey, "RSI".toList)]
  exact ⟨s, hs, himp (renderPrompt (dictGet [(topicKey, "RSI".toList)] topicKey))
    "boom".toList rfl rfl⟩

/-- Claim C6, counterexample: a whitespace-only `strategy_type` is truthy
for Python's `if not strategy_type`, so it passes validation — the
handler performs a model call and does not return the required-field
error, contradicting "empty after trimming". -/
theorem c6_counterexample :
    (handle_call_tool (fun _ => ModelOutcome.ok ['x']) strategyToolName
      [(strategyTypeKey, [' '])]).2 ≠ [] ∧
    (handle_call_tool (fun _ => ModelOutcome.ok ['x']) strategyToolName
      [(strategyTypeKey, [' '])]).1 ≠ [⟨textType, strategyRequiredMsg⟩] := by
  constructor
  · have e1 : (handle_call_tool (fun _ => ModelOutcome.ok ['x']) strategyToolName
        [(strategyTypeKey, [' '])]).2 =
        [renderPrompt (strategyTopicPrefix ++ [' '])] := rfl
    rw [e1]
    simp
  · have e2 : (handle_call_tool (fun _ => ModelOutcome.ok ['x']) strategyToolName
        [(strategyTypeKey, [' '])]).1 =
        [⟨textType, json_dumps_indent2 (extract_json_from_response ['x'])⟩] := rfl
    rw [e2]
    decide

/-- Claim C6 (amended): for every known tool, a missing or empty-string
required argument (the code checks emptiness only, without trimming)
yields the ordinary text `"Error: <Field> is required"` — for
`explain_crypto_concept` "Error: Topic is required", for
`get_crypto_strategy` "Error: Strategy type is required", for
`analyze_crypto_indicator` "Error: Indicator is required" — and no
external model call is performed. -/
theorem c6_required_field (model : Str → ModelOutcome) (arguments : List (Str × Str)) :
    (dictGet arguments topicKey = [] →
      handle_call_tool model explainToolName arguments =
        ([⟨textType, topicRequiredMsg⟩], [])) ∧
    (dictGet arguments strategyTypeKey = [] →
      handle_call_tool model strategyToolName arguments =
        ([⟨textType, strategyRequiredMsg⟩], [])) ∧
    (dictGet arguments indicatorKey = [] →
      handle_call_tool model indicatorToolName arguments =
        ([⟨textType, indicatorRequiredMsg⟩], [])) := by
  refine ⟨?_, ?_, ?_⟩
  · intro h
    unfold handle_call_tool
    rw [if_pos rfl, if_pos h]
  · intro h
    unfold handle_call_tool
    rw [if_neg (by decide), if_pos rfl, if_pos h]
  · intro h
    unfold handle_call_tool
    rw [if_neg (by decide), if_neg (by decide), if_pos rfl, if_pos h]

/-- Witness for the amended C6: calls with no arguments at all, one per
known tool. -/
theorem c6_required_field_witness :
    handle_call_tool (fun _ => ModelOutcome.ok []) explainToolName [] =
      ([⟨textType, topicRequiredMsg⟩], []) ∧
    handle_call_tool (fun _ => ModelOutcome.ok []) strategyToolName [] =
      ([⟨textType, strategyRequiredMsg⟩], []) ∧
    handle_call_tool (fun _ => ModelOutcome.ok []) indicatorToolName [] =
      ([⟨textType, indicatorRequiredMsg⟩], []) :=
  ⟨(c6_required_field (fun _ => ModelOutcome.ok []) []).1 rfl,
   (c6_required_field (fun _ => ModelOutcome.ok []) []).2.1 rfl,
   (c6_required_field (fun _ => ModelOutcome.ok []) []).2.2 rfl⟩

/-- Claim C7: any tool name outside the three known ones yields the
ordinary text `"Unknown tool: <name>"` and no model call. -/
theorem c7_unknown_tool (model : Str → ModelOutcome) (name : Str)
    (arguments : List (Str × Str)) (h1 : name ≠ explainToolName)
    (h2 : name ≠ strategyToolName) (h3 : name ≠ indicatorToolName) :
    handle_call_tool model name arguments =
      ([⟨textType, unknownToolPrefix ++ name⟩], []) := by
  unfold handle_call_tool
  rw [if_neg h1, if_neg h2, if_neg h3]

/-- Witness for C7 at the tool name `"foo"`. -/
theorem c7_unknown_tool_witness :
    handle_call_tool (fun _ => ModelOutcome.ok []) "foo".toList [] =
      ([⟨textType, unknownToolPrefix ++ "foo".toList⟩], []) :=
  c7_unknown_tool (fun _ => ModelOutcome.ok []) "foo".toList []
    (by decide) (by decide) (by decide)

set_option maxRecDepth 8000 in
/-- Claim C8: the fixed identifier returns the descriptor pretty-printed;
it parses back to an object whose `capabilities` member is a nonempty
sequence of strings; every other identifier fails with the raised
`ValueError`'s message. -/
theorem c8_resource_read (uri : Str) :
    (handle_read_resource cryptoKnowledgeUri = Except.ok (json_dumps_indent2 knowledgeBase) ∧
      json_loads (json_dumps_indent2 knowledgeBase) = some knowledgeBase ∧
      ∃ caps : List Json, objGet knowledgeBase "capabilities".toList = some (Json.arr caps) ∧
        1 ≤ caps.length ∧ ∀ c ∈ caps, ∃ s, c = Json.str s) ∧
    (uri ≠ cryptoKnowledgeUri →
      handle_read_resource uri = Except.error (unknownResourcePrefix ++ uri)) := by
  refine ⟨⟨rfl, rfl, ?_⟩, ?_⟩
  · refine ⟨[Json.str "Cryptocurrency concept explanations".toList,
      Json.str "Trading strategy analysis".toList,
      Json.str "Technical indicator implementation".toList,
      Json.str "Quantitative finance methods".toList,
      Json.str "Python code examples".toList], rfl, by decide, ?_⟩
    intro c hc
    simp only [List.mem_cons, List.not_mem_nil, or_false] at hc
    rcases hc with h | h | h | h | h
    · exact ⟨_, h⟩
    · exact ⟨_, h⟩
    · exact ⟨_, h⟩
    · exact ⟨_, h⟩
    · exact ⟨_, h⟩
  · intro hne
    unfold handle_read_resource
    rw [if_neg hne]

/-- Witness for C8 at a different identifier. -/
theorem c8_resource_read_witness :
    handle_read_resource "gemini://other".toList =
      Except.error (unknownResourcePrefix ++ "gemini://other".toList) :=
  (c8_resource_read "gemini://other".toList).2 (by decide)

end CryptoMcp
